import Mathlib

/-!
Verification of the quorum aggregation engine and quorum driver of the
abex-finance/sui repository (crates/sui-core/src/authority_aggregator.rs and
crates/sui-core/src/quorum_driver/mod.rs), as a shallow embedding.

Modelling conventions:
* `AuthorityName`, digests, object references and transaction payloads are
  represented by `Nat` (they are opaque, ordered, decidable-equality values).
* Stakes, epochs and durations (milliseconds) are `Nat`.
* The asynchronous fan-out of `quorum_map_then_reduce_with_timeout` is
  modelled by an explicit list of `(authority, result)` responses in arrival
  order; the list contains exactly the responses that arrive before the
  governing timeout elapses, so "timeout with no further response" is the
  end of the list.
* Cryptographic operations (forming and verifying certificates from a
  collected set of signatures) are modelled as always succeeding; the code
  paths where `CertifiedTransaction::new`/`verify` fail are signature-crypto
  failures outside the scope of the aggregation logic.
-/

set_option autoImplicit false

/-- Authority signature over some payload; carries the signing epoch and the
authority identity (the cryptographic signature itself is opaque). -/
structure AuthoritySignInfo where
  epoch : Nat
  authority : Nat
  deriving DecidableEq, Repr

/-- Execution effects of a certificate, identified by their digest. -/
structure TransactionEffects where
  digest : Nat
  deriving DecidableEq, Repr

/-- Effects signed by a single authority (`SignedTransactionEffects`):
an epoch, the effects payload and the authority's signature info. -/
structure SignedTransactionEffects where
  epoch : Nat
  effects : TransactionEffects
  auth_sig : AuthoritySignInfo
  deriving DecidableEq, Repr

/-- Effects together with a quorum of signatures (`CertifiedTransactionEffects`). -/
structure CertifiedTransactionEffects where
  effects : TransactionEffects
  signatures : List AuthoritySignInfo
  deriving DecidableEq, Repr

/-- Certificate: a transaction payload plus authority signatures, carrying the
epoch in which it was formed. -/
structure CertifiedTransaction where
  epoch : Nat
  data : Nat
  signatures : List AuthoritySignInfo
  deriving DecidableEq, Repr

/-- Transaction signed by one authority at some epoch. -/
structure SignedTransaction where
  epoch : Nat
  data : Nat
  auth_sig : AuthoritySignInfo
  deriving DecidableEq, Repr

/-- Response of `handle_transaction` (`VerifiedTransactionInfoResponse`): the
relevant optional fields matched on by `process_transaction`. -/
structure VerifiedTransactionInfoResponse where
  certified_transaction : Option CertifiedTransaction
  signed_transaction : Option SignedTransaction
  signed_effects : Option SignedTransactionEffects
  deriving DecidableEq, Repr

/-- Response of `handle_certificate` (`VerifiedHandleCertificateResponse`). -/
structure HandleCertificateResponse where
  signed_effects : SignedTransactionEffects
  deriving DecidableEq, Repr

/-- Conflicting-transaction evidence map, the shape of
`BTreeMap<TransactionDigest, (Vec<(AuthorityName, ObjectRef)>, StakeUnit)>`,
kept as an association list sorted by ascending digest (BTreeMap key order). -/
abbrev ConflictingTxDigests := List (Nat × (List (Nat × Nat) × Nat))

/-- Error taxonomy (`SuiError`): the variants the aggregation engine and the
quorum driver inspect, plus `rpcError` standing for every other variant. -/
inductive SuiError where
  | ObjectLockConflict (obj_ref : Nat) (pending_transaction : Nat)
  | UnexpectedResultFromValidatorHandleTransaction (ret : VerifiedTransactionInfoResponse)
  | QuorumFailedToProcessTransaction (good_stake : Nat) (errors : List SuiError)
      (conflicting_tx_digests : ConflictingTxDigests)
  | QuorumFailedToExecuteCertificate (errors : List SuiError)
  | QuorumFailedToProcessTransactionWithConflictingTransactions
      (conflicting_txes : ConflictingTxDigests)
      (retried_tx_digest : Option Nat) (retried_tx_success : Option Bool)
  | rpcError (code : Nat)

/-- Terminal error type surfaced by the quorum driver (`QuorumDriverError`). -/
inductive QuorumDriverError where
  | ObjectsDoubleUsed (conflicting_txes : ConflictingTxDigests)
      (retried_tx : Option Nat) (retried_tx_success : Option Bool)
  | FailedAfterMaximumAttempts (total_attempts : Nat)

/-- Modelled from the spec: the per-epoch `Committee` type lives in the
`sui-types` crate, which is not part of the provided sources; the spec
describes it as an immutable map from authority to stake with
`quorum_threshold = floor(2*total/3)+1` and
`validity_threshold = floor(total/3)+1`, and `weight` returning 0 for an
unknown authority. -/
structure Committee where
  epoch : Nat
  voting_rights : List (Nat × Nat)

/-- Modelled from the spec: the committee's total stake. -/
def Committee.total_stake (c : Committee) : Nat :=
  (c.voting_rights.map (fun p => p.2)).sum

/-- Modelled from the spec: stake of an authority, 0 if unknown. -/
def Committee.weight (c : Committee) (authority : Nat) : Nat :=
  match c.voting_rights.find? (fun p => p.1 == authority) with
  | some p => p.2
  | none => 0

/-- Modelled from the spec: 2f+1 threshold. -/
def Committee.quorum_threshold (c : Committee) : Nat :=
  2 * c.total_stake / 3 + 1

/-- Modelled from the spec: f+1 threshold. -/
def Committee.validity_threshold (c : Committee) : Nat :=
  c.total_stake / 3 + 1

/-- Forming `CertifiedTransactionEffects` from effects plus collected
signatures; signature aggregation is modelled as always succeeding. -/
def CertifiedTransactionEffects.new (effects : TransactionEffects)
    (signatures : List AuthoritySignInfo) (_committee : Committee) :
    Option CertifiedTransactionEffects :=
  some { effects := effects, signatures := signatures }

/-- Forming a `CertifiedTransaction` from the transaction data plus collected
signatures (`CertifiedTransaction::new` followed by `verify`, both modelled
as succeeding); the certificate carries the committee's current epoch. -/
def CertifiedTransaction.new (data : Nat) (signatures : List AuthoritySignInfo)
    (committee : Committee) : CertifiedTransaction :=
  { epoch := committee.epoch, data := data, signatures := signatures }

/-- Per-effects-value accumulator entry (`EffectsStakeInfo`). -/
structure EffectsStakeInfo where
  stake : Nat
  effects : TransactionEffects
  signatures : List AuthoritySignInfo
  deriving DecidableEq, Repr

/-- Stake accumulator keyed by `(epoch, effects_digest)` (`EffectsStakeMap`);
the `HashMap` is modelled as an association list (no key order is relied on). -/
structure EffectsStakeMap where
  effects_map : List ((Nat × Nat) × EffectsStakeInfo)
  effects_cert : Option CertifiedTransactionEffects

/-- Empty `EffectsStakeMap` (the `Default` instance). -/
def EffectsStakeMap.empty : EffectsStakeMap :=
  { effects_map := [], effects_cert := none }

/-- Lookup of an entry by key in the underlying association list. -/
def findEntry (key : Nat × Nat) :
    List ((Nat × Nat) × EffectsStakeInfo) → Option EffectsStakeInfo
  | [] => none
  | (k, info) :: rest => if k = key then some info else findEntry key rest

/-- Accumulated stake of a key, 0 when absent. -/
def map_stake (m : List ((Nat × Nat) × EffectsStakeInfo)) (key : Nat × Nat) : Nat :=
  match findEntry key m with
  | some info => info.stake
  | none => 0

/-- The `entry(..).or_insert(..)` step of `EffectsStakeMap::add` followed by
`stake += weight; signatures.push(sig)`: returns the updated list and the
updated entry. -/
def updateEntryGet (key : Nat × Nat) (effects : TransactionEffects)
    (sig : AuthoritySignInfo) (weight : Nat) :
    List ((Nat × Nat) × EffectsStakeInfo) →
      List ((Nat × Nat) × EffectsStakeInfo) × EffectsStakeInfo
  | [] =>
    let info : EffectsStakeInfo :=
      { stake := weight, effects := effects, signatures := [sig] }
    ([(key, info)], info)
  | (k, info) :: rest =>
    if k = key then
      let info' : EffectsStakeInfo :=
        { stake := info.stake + weight, effects := info.effects,
          signatures := info.signatures ++ [sig] }
      ((k, info') :: rest, info')
    else
      let r := updateEntryGet key effects sig weight rest
      ((k, info) :: r.1, r.2)

/-- `EffectsStakeMap::add`: destructure the signed effects, accumulate stake
and signature under the `(epoch, effects_digest)` key, and when the entry's
stake reaches `quorum_threshold` overwrite `effects_cert` with the formed
certificate; returns the updated map and the `bool` result of `add`. -/
def EffectsStakeMap.add (self : EffectsStakeMap)
    (effects : SignedTransactionEffects) (weight : Nat) (committee : Committee) :
    EffectsStakeMap × Bool :=
  let epoch := effects.epoch
  let digest := effects.effects.digest
  let r := updateEntryGet (epoch, digest) effects.effects effects.auth_sig weight
    self.effects_map
  if r.2.stake ≥ committee.quorum_threshold then
    let cert := CertifiedTransactionEffects.new r.2.effects r.2.signatures committee
    ({ effects_map := r.1, effects_cert := cert }, cert.isSome)
  else
    ({ effects_map := r.1, effects_cert := self.effects_cert }, false)

/-- `EffectsStakeMap::len`. -/
def EffectsStakeMap.len (self : EffectsStakeMap) : Nat :=
  self.effects_map.length

/-- `EffectsStakeMap::get_cert`. -/
def EffectsStakeMap.get_cert (self : EffectsStakeMap) :
    Option CertifiedTransactionEffects :=
  self.effects_cert

/-- Reducer verdict (`ReduceOutput`) of the map-then-reduce engine. -/
inductive ReduceOutput (S : Type) where
  | Continue (state : S)
  | ContinueWithTimeout (state : S) (duration : Nat)
  | End (state : S)

/-- The fold loop of `quorum_map_then_reduce_with_timeout_and_prefs`:
responses are folded in arrival order; `Continue` and `ContinueWithTimeout`
keep folding (the timeout change only affects which responses arrive, which
is abstracted into the response list), `End` returns immediately, a reducer
error aborts the whole operation, and exhausting the list (the timeout
elapsing with no further response) returns the accumulated state. -/
def quorum_map_then_reduce_with_timeout {S V : Type} (committee : Committee)
    (reduce_result : S → Nat → Nat → Except SuiError V → Except SuiError (ReduceOutput S)) :
    S → List (Nat × Except SuiError V) → Except SuiError S
  | state, [] => .ok state
  | state, (authority_name, result) :: rest =>
    match reduce_result state authority_name (committee.weight authority_name) result with
    | .error e => .error e
    | .ok (.Continue s) =>
      quorum_map_then_reduce_with_timeout committee reduce_result s rest
    | .ok (.ContinueWithTimeout s _) =>
      quorum_map_then_reduce_with_timeout committee reduce_result s rest
    | .ok (.End s) => .ok s

/-- Predicate-style companion of the engine: `some st` when folding the whole
list yields only `Continue`/`ContinueWithTimeout` verdicts and ends in state
`st` (used to speak about a fold that has not stopped yet). -/
def reduce_all_continue {S V : Type} (committee : Committee)
    (reduce_result : S → Nat → Nat → Except SuiError V → Except SuiError (ReduceOutput S)) :
    S → List (Nat × Except SuiError V) → Option S
  | state, [] => some state
  | state, (authority_name, result) :: rest =>
    match reduce_result state authority_name (committee.weight authority_name) result with
    | .ok (.Continue s) => reduce_all_continue committee reduce_result s rest
    | .ok (.ContinueWithTimeout s _) => reduce_all_continue committee reduce_result s rest
    | _ => none

/-- Accumulator state of `process_transaction` (`ProcessTransactionState`). -/
structure ProcessTransactionState where
  signatures : List AuthoritySignInfo
  certificate : Option CertifiedTransaction
  effects_map : EffectsStakeMap
  errors : List SuiError
  good_stake : Nat
  bad_stake : Nat
  conflicting_tx_digests : ConflictingTxDigests

/-- Initial (`Default`) `ProcessTransactionState`. -/
def initial_transaction_state : ProcessTransactionState :=
  { signatures := [], certificate := none, effects_map := EffectsStakeMap.empty,
    errors := [], good_stake := 0, bad_stake := 0, conflicting_tx_digests := [] }

/-- The `conflicting_tx_digests.entry(pending_transaction).or_insert(..)`
update: push the `(authority, object_ref)` evidence and accumulate the
reporting stake, keeping the BTreeMap's ascending key order. -/
def record_conflicting_transaction (m : ConflictingTxDigests)
    (pending_transaction : Nat) (name : Nat) (obj_ref : Nat) (weight : Nat) :
    ConflictingTxDigests :=
  match m with
  | [] => [(pending_transaction, ([(name, obj_ref)], weight))]
  | (k, (lock_records, total_stake)) :: rest =>
    if pending_transaction < k then
      (pending_transaction, ([(name, obj_ref)], weight)) ::
        (k, (lock_records, total_stake)) :: rest
    else if pending_transaction = k then
      (k, (lock_records ++ [(name, obj_ref)], total_stake + weight)) :: rest
    else
      (k, (lock_records, total_stake)) ::
        record_conflicting_transaction rest pending_transaction name obj_ref weight

/-- The signed-transaction match arm of `process_transaction`'s reducer:
append the signature, accumulate good stake, and once
`good_stake >= quorum_threshold` synthesize the certificate from the
collected signatures. -/
def handle_signed_transaction_arm (committee : Committee) (transaction : Nat)
    (state : ProcessTransactionState) (weight : Nat)
    (inner_signed : SignedTransaction) : ProcessTransactionState :=
  let signatures := state.signatures ++ [inner_signed.auth_sig]
  let good_stake := state.good_stake + weight
  if good_stake ≥ committee.quorum_threshold then
    { state with
      signatures := signatures
      good_stake := good_stake
      certificate := some (CertifiedTransaction.new transaction signatures committee) }
  else
    { state with signatures := signatures, good_stake := good_stake }

/-- The fallthrough `Ok(ret)` match arm of `process_transaction`'s reducer:
record an `UnexpectedResultFromValidatorHandleTransaction` error and count
the responder's stake as bad stake. -/
def handle_unexpected_arm (state : ProcessTransactionState) (weight : Nat)
    (ret : VerifiedTransactionInfoResponse) : ProcessTransactionState :=
  { state with
    errors := state.errors ++ [.UnexpectedResultFromValidatorHandleTransaction ret]
    bad_stake := state.bad_stake + weight }

/-- The `Err(err)` match arm of `process_transaction`'s reducer: record
object-lock-conflict evidence when applicable, append the error and count
the responder's stake as bad stake. -/
def handle_error_arm (state : ProcessTransactionState) (name : Nat) (weight : Nat)
    (err : SuiError) : ProcessTransactionState :=
  let state :=
    match err with
    | .ObjectLockConflict obj_ref pending_transaction =>
      { state with conflicting_tx_digests :=
          (record_conflicting_transaction state.conflicting_tx_digests
            pending_transaction name obj_ref weight) }
    | _ => state
  { state with errors := state.errors ++ [err], bad_stake := state.bad_stake + weight }

/-- The response classification of `process_transaction`'s reducer, with the
source's match-arm order: (1) a certificate at the current epoch is adopted;
(2) otherwise a certificate accompanied by signed effects goes through the
effects stake map and is adopted on effects quorum; (3) a signed transaction
at the current epoch goes through `handle_signed_transaction_arm`; (4) an
error goes through `handle_error_arm`; (5) anything else goes through
`handle_unexpected_arm`. -/
def handle_transaction_response (committee : Committee) (transaction : Nat)
    (state : ProcessTransactionState) (name : Nat) (weight : Nat)
    (result : Except SuiError VerifiedTransactionInfoResponse) :
    ProcessTransactionState :=
  match result with
  | .error err => handle_error_arm state name weight err
  | .ok resp =>
    match resp.certified_transaction with
    | some inner_certificate =>
      if inner_certificate.epoch = committee.epoch then
        { state with certificate := some inner_certificate }
      else
        match resp.signed_effects with
        | some inner_effects =>
          let r := state.effects_map.add inner_effects weight committee
          if r.2 then
            { state with effects_map := r.1, certificate := some inner_certificate }
          else
            { state with effects_map := r.1 }
        | none =>
          match resp.signed_transaction with
          | some inner_signed =>
            if inner_signed.epoch = committee.epoch then
              handle_signed_transaction_arm committee transaction state weight inner_signed
            else
              handle_unexpected_arm state weight resp
          | none => handle_unexpected_arm state weight resp
    | none =>
      match resp.signed_transaction with
      | some inner_signed =>
        if inner_signed.epoch = committee.epoch then
          handle_signed_transaction_arm committee transaction state weight inner_signed
        else
          handle_unexpected_arm state weight resp
      | none => handle_unexpected_arm state weight resp

/-- The reducer of `process_transaction`: classify the response, then stop
when bad stake exceeds `validity_threshold` or a certificate is present. -/
def process_transaction_reduce (committee : Committee) (transaction : Nat)
    (state : ProcessTransactionState) (name : Nat) (weight : Nat)
    (result : Except SuiError VerifiedTransactionInfoResponse) :
    ReduceOutput ProcessTransactionState :=
  let state := handle_transaction_response committee transaction state name weight result
  if state.bad_stake > committee.validity_threshold then .End state
  else if state.certificate.isSome then .End state
  else .Continue state

/-- `AuthorityAggregator::process_transaction`: fold the responses through the
engine starting from the default state, then return the certificate or a
`QuorumFailedToProcessTransaction` failure carrying `good_stake`, the
collected errors and the conflicting-transaction evidence. -/
def process_transaction (committee : Committee) (transaction : Nat)
    (responses : List (Nat × Except SuiError VerifiedTransactionInfoResponse)) :
    Except SuiError CertifiedTransaction :=
  match quorum_map_then_reduce_with_timeout committee
      (fun s n w r => .ok (process_transaction_reduce committee transaction s n w r))
      initial_transaction_state responses with
  | .error e => .error e
  | .ok state =>
    match state.certificate with
    | some certificate => .ok certificate
    | none =>
      .error (.QuorumFailedToProcessTransaction state.good_stake state.errors
        state.conflicting_tx_digests)

/-- Accumulator state of `process_certificate` (`ProcessCertificateState`). -/
structure ProcessCertificateState where
  effects_map : EffectsStakeMap
  bad_stake : Nat
  errors : List SuiError

/-- Initial (`Default`) `ProcessCertificateState`. -/
def initial_certificate_state : ProcessCertificateState :=
  { effects_map := EffectsStakeMap.empty, bad_stake := 0, errors := [] }

/-- The reducer of `process_certificate`: feed signed effects into the
`EffectsStakeMap`, stop with `End` as soon as `add` reports quorum; tally
errors as bad stake and stop once bad stake exceeds `validity_threshold`. -/
def process_certificate_reduce (committee : Committee)
    (state : ProcessCertificateState) (_name : Nat) (weight : Nat)
    (result : Except SuiError HandleCertificateResponse) :
    ReduceOutput ProcessCertificateState :=
  match result with
  | .ok resp =>
    let r := state.effects_map.add resp.signed_effects weight committee
    if r.2 then .End { state with effects_map := r.1 }
    else .Continue { state with effects_map := r.1 }
  | .error err =>
    let state :=
      { state with
        errors := state.errors ++ [err]
        bad_stake := state.bad_stake + weight }
    if state.bad_stake > committee.validity_threshold then .End state
    else .Continue state

/-- The tail of `process_certificate` starting from an arbitrary accumulator
state: fold the responses, then return the certified effects recorded in the
stake map, or `QuorumFailedToExecuteCertificate` with the collected errors
(the final `verify` of the certified effects is modelled as succeeding). -/
def process_certificate_from (committee : Committee)
    (state : ProcessCertificateState)
    (responses : List (Nat × Except SuiError HandleCertificateResponse)) :
    Except SuiError CertifiedTransactionEffects :=
  match quorum_map_then_reduce_with_timeout committee
      (fun s n w r => .ok (process_certificate_reduce committee s n w r))
      state responses with
  | .error e => .error e
  | .ok state =>
    match state.effects_map.get_cert with
    | some cert => .ok cert
    | none => .error (.QuorumFailedToExecuteCertificate state.errors)

/-- `AuthorityAggregator::process_certificate` (the broadcast certificate only
determines the per-authority requests, which are abstracted into the
response list). -/
def process_certificate (committee : Committee) (_certificate : CertifiedTransaction)
    (responses : List (Nat × Except SuiError HandleCertificateResponse)) :
    Except SuiError CertifiedTransactionEffects :=
  process_certificate_from committee initial_certificate_state responses

/-- Task value of the quorum driver (`QuorumDriverTask`); `next_retry_after`
is an instant in milliseconds. -/
structure QuorumDriverTask where
  transaction : Nat
  tx_cert : Option CertifiedTransaction
  retry_times : Nat
  next_retry_after : Nat

/-- Observable outcome of `QuorumDriver::enqueue_again_maybe`: either the
waiter is notified of permanent failure, or a new task is enqueued. -/
inductive EnqueueAgainOutcome where
  | notified_failure (e : QuorumDriverError)
  | enqueued (task : QuorumDriverTask)

/-- `QuorumDriver::enqueue_again_maybe`: when the old retry count has reached
`max_retry_times`, notify `FailedAfterMaximumAttempts` with
`old_retry_times + 1` total attempts; otherwise re-enqueue the task with the
retry count incremented and `next_retry_after = now + 200ms * 2^old_retry_times`. -/
def enqueue_again_maybe (max_retry_times : Nat) (now : Nat) (transaction : Nat)
    (tx_cert : Option CertifiedTransaction) (old_retry_times : Nat) :
    EnqueueAgainOutcome :=
  if old_retry_times ≥ max_retry_times then
    .notified_failure (.FailedAfterMaximumAttempts (old_retry_times + 1))
  else
    .enqueued
      { transaction := transaction
        tx_cert := tx_cert
        retry_times := old_retry_times + 1
        next_retry_after := now + 200 * 2 ^ old_retry_times }

/-- `convert_to_quorum_driver_error_if_nonretryable`: only the
conflicting-transactions failure is converted (to `ObjectsDoubleUsed`);
every other error is retryable (`none`). -/
def convert_to_quorum_driver_error_if_nonretryable (err : SuiError) :
    Option QuorumDriverError :=
  match err with
  | .QuorumFailedToProcessTransactionWithConflictingTransactions conflicting_txes
      retried_tx_digest retried_tx_success =>
    some (.ObjectsDoubleUsed conflicting_txes retried_tx_digest retried_tx_success)
  | _ => none

/-- Action taken by `QuorumDriverHandler::process_task` when the certification
attempt fails: notify the waiter (terminal) or re-enqueue (retryable). -/
inductive TaskFailureAction where
  | notify_err (e : QuorumDriverError)
  | reenqueue (transaction : Nat) (tx_cert : Option CertifiedTransaction)
      (old_retry_times : Nat)

/-- The failure branch of `QuorumDriverHandler::process_task` for the
certification stage: a non-retryable error reaches terminal state and the
waiter is notified; otherwise `enqueue_again_maybe` is spawned with no
certificate and the unchanged retry count. -/
def process_task_on_certification_failure (err : SuiError) (transaction : Nat)
    (old_retry_times : Nat) : TaskFailureAction :=
  match convert_to_quorum_driver_error_if_nonretryable err with
  | some qd_error => .notify_err qd_error
  | none => .reenqueue transaction none old_retry_times

/-- Stable insertion of one conflicting-transaction entry into a list sorted
by descending reporting stake (an earlier entry wins ties, matching the
stability of `sort_by`). -/
def insert_desc (x : Nat × (List (Nat × Nat) × Nat)) :
    ConflictingTxDigests → ConflictingTxDigests
  | [] => [x]
  | y :: ys => if x.2.2 ≥ y.2.2 then x :: y :: ys else y :: insert_desc x ys

/-- The `sort_by(|lhs, rhs| rhs.1.1.cmp(&lhs.1.1))` of
`attempt_conflicting_transactions_maybe`: a stable sort of the conflicting
entries by descending reporting stake. -/
def sort_by_stake_desc : ConflictingTxDigests → ConflictingTxDigests
  | [] => []
  | x :: xs => insert_desc x (sort_by_stake_desc xs)

/-- `QuorumDriver::attempt_conflicting_transactions_maybe`: evaluate the
retry policy against the original transaction's `good_stake` and the best
(highest reporting stake) conflicting candidate; `attempt_one` abstracts
`attempt_one_conflicting_transaction` for the chosen digest. The second
component is the list of digests actually attempted, recording that at most
one conflicting transaction is ever executed, exactly once. -/
def attempt_conflicting_transactions_maybe (validity : Nat) (good_stake : Nat)
    (conflicting_tx_digests : ConflictingTxDigests)
    (attempt_one : Nat → Except SuiError Bool) :
    Except SuiError (Option (Nat × Bool)) × List Nat :=
  match sort_by_stake_desc conflicting_tx_digests with
  | [] => (.ok none, [])
  | (tx_digest, (_validators, total_stake)) :: _ =>
    if good_stake ≥ validity ∧ total_stake ≥ validity then (.ok none, [])
    else if good_stake ≥ validity then (.ok none, [])
    else if total_stake < validity then (.ok none, [])
    else
      match attempt_one tx_digest with
      | .error e => (.error e, [tx_digest])
      | .ok is_tx_executed => (.ok (some (tx_digest, is_tx_executed)), [tx_digest])

/-- `QuorumDriver::attempt_one_conflicting_transaction`: the fetched
transaction info from the reporting validators is abstracted into the
`fetched_signed`/`fetched_cert` arguments, and the success of the one
`process_certificate` (resp. `execute_transaction`) call into
`process_certificate_ok` (resp. `execute_transaction_ok`); a certificate is
preferred, then a signed transaction, and both absent is the unreachable
error path. -/
def attempt_one_conflicting_transaction (fetched_signed : Option SignedTransaction)
    (fetched_cert : Option CertifiedTransaction)
    (process_certificate_ok : Bool) (execute_transaction_ok : Bool) :
    Except SuiError Bool :=
  match fetched_cert with
  | some _ => .ok process_certificate_ok
  | none =>
    match fetched_signed with
    | some _ => .ok execute_transaction_ok
    | none => .error (.rpcError 0)

/-- Outcome alphabet for the specification-side description of
`process_certificate` used to state claim C2. -/
inductive CertAggregationOutcome where
  | certified (epoch : Nat) (digest : Nat)
  | failed (errors : List SuiError)

/-- Specification-side description of the certificate-execution reduce step,
written from the spec's words: every response is fed into a per-digest stake
tally; once a distinct `(epoch, effects_digest)` key's accumulated stake
reaches `quorum_threshold` the aggregation is certified with that key;
error stake beyond `validity_threshold` aborts with the collected errors,
and running out of responses fails with the collected errors. -/
def spec_cert_outcome (committee : Committee) (key_stake : Nat × Nat → Nat)
    (error_stake : Nat) (collected_errors : List SuiError) :
    List (Nat × Except SuiError HandleCertificateResponse) → CertAggregationOutcome
  | [] => .failed collected_errors
  | (name, .ok resp) :: rest =>
    let key := (resp.signed_effects.epoch, resp.signed_effects.effects.digest)
    let s := key_stake key + committee.weight name
    if s ≥ committee.quorum_threshold then .certified key.1 key.2
    else
      spec_cert_outcome committee (fun k => if k = key then s else key_stake k)
        error_stake collected_errors rest
  | (name, .error err) :: rest =>
    let e := error_stake + committee.weight name
    if e > committee.validity_threshold then .failed (collected_errors ++ [err])
    else spec_cert_outcome committee key_stake e (collected_errors ++ [err]) rest

/-- Folding a list of weighted signed effects into an `EffectsStakeMap`
through repeated `add` calls (the Bool results are dropped). -/
def add_all (committee : Committee) :
    EffectsStakeMap → List (SignedTransactionEffects × Nat) → EffectsStakeMap
  | m, [] => m
  | m, (effects, weight) :: rest =>
    add_all committee (m.add effects weight committee).1 rest

/-- Committee of the end-to-end scenarios: 4 authorities of stake 1 each at
epoch 0, hence total 4, quorum threshold 3 and validity threshold 2. -/
def committee4 : Committee :=
  { epoch := 0, voting_rights := [(0, 1), (1, 1), (2, 1), (3, 1)] }

/-- Response in which authority `i` returns a fresh signature over
transaction 7 at epoch 0. -/
def signed_response (i : Nat) : VerifiedTransactionInfoResponse :=
  { certified_transaction := none
    signed_transaction := some { epoch := 0, data := 7, auth_sig := { epoch := 0, authority := i } }
    signed_effects := none }

/-- Arrival-ordered responses of end-to-end scenario 1: all four authorities
sign the transaction identically; only the first three are folded. -/
def scenario1_responses : List (Nat × Except SuiError VerifiedTransactionInfoResponse) :=
  [(0, .ok (signed_response 0)), (1, .ok (signed_response 1)),
   (2, .ok (signed_response 2)), (3, .ok (signed_response 3))]

/-- Signed effects with digest `d` by authority `i` at epoch 0. -/
def effects_response (d : Nat) (i : Nat) : HandleCertificateResponse :=
  { signed_effects := { epoch := 0, effects := { digest := d }, auth_sig := { epoch := 0, authority := i } } }

/-- Arrival-ordered responses of end-to-end scenario 2: two authorities report
effects digest 1, the other two report digest 2. -/
def scenario2_responses : List (Nat × Except SuiError HandleCertificateResponse) :=
  [(0, .ok (effects_response 1 0)), (1, .ok (effects_response 1 1)),
   (2, .ok (effects_response 2 2)), (3, .ok (effects_response 2 3))]

/-- Certificate used in the certificate-execution scenarios. -/
def certificate4 : CertifiedTransaction :=
  { epoch := 0, data := 7, signatures := [] }

/-- Arrival-ordered responses in which three authorities report effects
digest 1, enough for quorum in `committee4`. -/
def scenario2_quorum_responses : List (Nat × Except SuiError HandleCertificateResponse) :=
  [(0, .ok (effects_response 1 0)), (1, .ok (effects_response 1 1)),
   (2, .ok (effects_response 1 2))]

lemma reduce_append_of_all_continue {S V : Type} (committee : Committee)
    (reduce : S → Nat → Nat → Except SuiError V → Except SuiError (ReduceOutput S)) :
    ∀ (l : List (Nat × Except SuiError V)) (s0 st : S)
      (l2 : List (Nat × Except SuiError V)),
    reduce_all_continue committee reduce s0 l = some st →
    quorum_map_then_reduce_with_timeout committee reduce s0 (l ++ l2) =
      quorum_map_then_reduce_with_timeout committee reduce st l2 := by
  intro l
  induction l with
  | nil =>
    intro s0 st l2 h
    simp only [reduce_all_continue, Option.some.injEq] at h
    subst h
    rfl
  | cons hd tl ih =>
    intro s0 st l2 h
    obtain ⟨name, result⟩ := hd
    simp only [reduce_all_continue] at h
    simp only [List.cons_append, quorum_map_then_reduce_with_timeout]
    cases hred : reduce s0 name (committee.weight name) result with
    | error e => rw [hred] at h; exact absurd h (by simp)
    | ok out =>
      cases out with
      | Continue s => rw [hred] at h; exact ih s st l2 h
      | ContinueWithTimeout s d => rw [hred] at h; exact ih s st l2 h
      | End s => rw [hred] at h; exact absurd h (by simp)

/-- C8: for every run of the map-then-reduce engine, if the reduce function
returns `End state'` while folding some authority's response (after a prefix
of responses that only asked to continue), the engine returns `Ok state'`
immediately: no response from any other authority — in particular none of
the still-outstanding ones in `rest` — is folded afterwards or changes the
returned state. -/
theorem quorum_map_then_reduce_end_is_final {S V : Type} (committee : Committee)
    (reduce : S → Nat → Nat → Except SuiError V → Except SuiError (ReduceOutput S))
    (s0 st st' : S) (pre : List (Nat × Except SuiError V)) (name : Nat)
    (result : Except SuiError V) (rest : List (Nat × Except SuiError V))
    (hpre : reduce_all_continue committee reduce s0 pre = some st)
    (hend : reduce st name (committee.weight name) result = .ok (.End st')) :
    quorum_map_then_reduce_with_timeout committee reduce s0
      (pre ++ (name, result) :: rest) = .ok st' := by
  rw [reduce_append_of_all_continue committee reduce pre s0 st ((name, result) :: rest) hpre]
  simp [quorum_map_then_reduce_with_timeout, hend]

/-- Closed instance of `quorum_map_then_reduce_end_is_final`: a two-state
counting reducer ends on the second response and the third response is
discarded. -/
theorem quorum_map_then_reduce_end_is_final_witness :
    quorum_map_then_reduce_with_timeout committee4
      (fun s _ _ _ => Except.ok (if s = 0 then ReduceOutput.Continue 1 else ReduceOutput.End 5))
      0 ([((0 : Nat), (Except.ok (0 : Nat)))] ++ (1, Except.ok 0) :: [(2, Except.ok 0)]) =
      Except.ok 5 :=
  quorum_map_then_reduce_end_is_final committee4
    (fun s _ _ _ => Except.ok (if s = 0 then ReduceOutput.Continue 1 else ReduceOutput.End 5))
    0 1 5 [(0, Except.ok 0)] 1 (Except.ok 0) [(2, Except.ok 0)] (by rfl) (by rfl)

/-- C5: a retryably-failed task below `max_retry_times` is re-enqueued with
the retry count incremented by one and
`next_retry_after = now + 200ms * 2^(old retry count)` — so the delay of the
next retry is exactly double the previous one — while a task whose retry
count has reached `max_retry_times` is not re-enqueued: the waiter is
notified of `FailedAfterMaximumAttempts` with the total number of attempts. -/
theorem enqueue_again_maybe_policy (max_retry_times now transaction : Nat)
    (tx_cert : Option CertifiedTransaction) (old_retry_times : Nat) :
    (old_retry_times < max_retry_times →
      enqueue_again_maybe max_retry_times now transaction tx_cert old_retry_times =
        .enqueued ⟨transaction, tx_cert, old_retry_times + 1,
          now + 200 * 2 ^ old_retry_times⟩ ∧
      200 * 2 ^ (old_retry_times + 1) = 2 * (200 * 2 ^ old_retry_times)) ∧
    (old_retry_times ≥ max_retry_times →
      enqueue_again_maybe max_retry_times now transaction tx_cert old_retry_times =
        .notified_failure (.FailedAfterMaximumAttempts (old_retry_times + 1))) := by
  constructor
  · intro h
    refine ⟨?_, by rw [pow_succ]; ring⟩
    simp [enqueue_again_maybe, Nat.not_le.mpr h]
  · intro h
    simp [enqueue_again_maybe, h]

/-- Closed instance of `enqueue_again_maybe_policy` for both branches with
`max_retry_times = 10`. -/
theorem enqueue_again_maybe_policy_witness :
    enqueue_again_maybe 10 1000 7 none 3 = .enqueued ⟨7, none, 4, 1000 + 200 * 2 ^ 3⟩ ∧
    enqueue_again_maybe 10 1000 7 none 10 =
      .notified_failure (.FailedAfterMaximumAttempts 11) :=
  ⟨((enqueue_again_maybe_policy 10 1000 7 none 3).1 (by decide)).1,
   (enqueue_again_maybe_policy 10 1000 7 none 10).2 (by decide)⟩

/-- C4: a certification failure is terminal — converted to a
`QuorumDriverError` and the waiter notified — exactly when it is the
conflicting-transactions (equivocation evidence) failure; every other
error converts to `none` and the task is re-enqueued with the same retry
count and no certificate. -/
theorem certification_failure_classification (err : SuiError)
    (transaction old_retry_times : Nat) :
    ((convert_to_quorum_driver_error_if_nonretryable err).isSome ↔
      ∃ ct rd rs, err =
        .QuorumFailedToProcessTransactionWithConflictingTransactions ct rd rs) ∧
    (∀ ct rd rs,
      err = .QuorumFailedToProcessTransactionWithConflictingTransactions ct rd rs →
      process_task_on_certification_failure err transaction old_retry_times =
        .notify_err (.ObjectsDoubleUsed ct rd rs)) ∧
    (convert_to_quorum_driver_error_if_nonretryable err = none →
      process_task_on_certification_failure err transaction old_retry_times =
        .reenqueue transaction none old_retry_times) := by
  refine ⟨?_, ?_, ?_⟩
  · cases err <;>
      simp [convert_to_quorum_driver_error_if_nonretryable]
  · intro ct rd rs h
    subst h
    simp [process_task_on_certification_failure,
      convert_to_quorum_driver_error_if_nonretryable]
  · intro h
    simp [process_task_on_certification_failure, h]

/-- Closed instance of `certification_failure_classification`: the
equivocation-evidence failure notifies the waiter, a generic error
re-enqueues. -/
theorem certification_failure_classification_witness :
    process_task_on_certification_failure
      (.QuorumFailedToProcessTransactionWithConflictingTransactions
        [(5, ([(0, 100)], 2))] none none) 7 0 =
      .notify_err (.ObjectsDoubleUsed [(5, ([(0, 100)], 2))] none none) ∧
    process_task_on_certification_failure (.rpcError 3) 7 1 = .reenqueue 7 none 1 :=
  ⟨(certification_failure_classification _ 7 0).2.1 [(5, ([(0, 100)], 2))] none none rfl,
   (certification_failure_classification _ 7 1).2.2 rfl⟩

lemma updateEntryGet_entry (key : Nat × Nat) (effects : TransactionEffects)
    (sig : AuthoritySignInfo) (weight : Nat) :
    ∀ m : List ((Nat × Nat) × EffectsStakeInfo),
    (updateEntryGet key effects sig weight m).2 =
      match findEntry key m with
      | some info =>
        { stake := info.stake + weight, effects := info.effects,
          signatures := info.signatures ++ [sig] }
      | none => { stake := weight, effects := effects, signatures := [sig] } := by
  intro m
  induction m with
  | nil => rfl
  | cons hd tl ih =>
    obtain ⟨k, info⟩ := hd
    by_cases h : k = key <;> simp [updateEntryGet, findEntry, h, ih]

lemma findEntry_updateEntryGet_same (key : Nat × Nat) (effects : TransactionEffects)
    (sig : AuthoritySignInfo) (weight : Nat) :
    ∀ m : List ((Nat × Nat) × EffectsStakeInfo),
    findEntry key (updateEntryGet key effects sig weight m).1 =
      some (updateEntryGet key effects sig weight m).2 := by
  intro m
  induction m with
  | nil => simp [updateEntryGet, findEntry]
  | cons hd tl ih =>
    obtain ⟨k, info⟩ := hd
    by_cases h : k = key <;> simp [updateEntryGet, findEntry, h, ih]

lemma findEntry_updateEntryGet_other (key : Nat × Nat) (effects : TransactionEffects)
    (sig : AuthoritySignInfo) (weight : Nat) (k : Nat × Nat) (hne : k ≠ key) :
    ∀ m : List ((Nat × Nat) × EffectsStakeInfo),
    findEntry k (updateEntryGet key effects sig weight m).1 = findEntry k m := by
  intro m
  induction m with
  | nil => simp [updateEntryGet, findEntry, Ne.symm hne]
  | cons hd tl ih =>
    obtain ⟨k', info⟩ := hd
    by_cases h : k' = key
    · subst h
      simp [updateEntryGet, findEntry, Ne.symm hne]
    · by_cases h2 : k' = k <;> simp [updateEntryGet, findEntry, h, h2, ih, hne]

lemma updateEntryGet_stake (key : Nat × Nat) (effects : TransactionEffects)
    (sig : AuthoritySignInfo) (weight : Nat) (m : List ((Nat × Nat) × EffectsStakeInfo)) :
    (updateEntryGet key effects sig weight m).2.stake = map_stake m key + weight := by
  rw [updateEntryGet_entry]
  unfold map_stake
  cases findEntry key m <;> simp

lemma map_stake_updateEntryGet_same (key : Nat × Nat) (effects : TransactionEffects)
    (sig : AuthoritySignInfo) (weight : Nat) (m : List ((Nat × Nat) × EffectsStakeInfo)) :
    map_stake (updateEntryGet key effects sig weight m).1 key =
      map_stake m key + weight := by
  unfold map_stake
  rw [findEntry_updateEntryGet_same, updateEntryGet_entry]
  cases hf : findEntry key m <;> simp [hf]

lemma map_stake_updateEntryGet_other (key : Nat × Nat) (effects : TransactionEffects)
    (sig : AuthoritySignInfo) (weight : Nat) (k : Nat × Nat) (hne : k ≠ key)
    (m : List ((Nat × Nat) × EffectsStakeInfo)) :
    map_stake (updateEntryGet key effects sig weight m).1 k = map_stake m k := by
  unfold map_stake
  rw [findEntry_updateEntryGet_other key effects sig weight k hne]

lemma add_spec (m : EffectsStakeMap) (effects : SignedTransactionEffects)
    (weight : Nat) (committee : Committee) :
    m.add effects weight committee =
      (let r := updateEntryGet (effects.epoch, effects.effects.digest)
        effects.effects effects.auth_sig weight m.effects_map
      if r.2.stake ≥ committee.quorum_threshold then
        ({ effects_map := r.1,
           effects_cert := some ⟨r.2.effects, r.2.signatures⟩ }, true)
      else
        ({ effects_map := r.1, effects_cert := m.effects_cert }, false)) := by
  unfold EffectsStakeMap.add CertifiedTransactionEffects.new
  dsimp only
  split <;> rfl

lemma add_effects_map (m : EffectsStakeMap) (effects : SignedTransactionEffects)
    (weight : Nat) (committee : Committee) :
    ((m.add effects weight committee).1).effects_map =
      (updateEntryGet (effects.epoch, effects.effects.digest) effects.effects
        effects.auth_sig weight m.effects_map).1 := by
  rw [add_spec]
  dsimp only
  split <;> rfl

lemma add_returns (m : EffectsStakeMap) (effects : SignedTransactionEffects)
    (weight : Nat) (committee : Committee) :
    (m.add effects weight committee).2 =
      decide (map_stake m.effects_map (effects.epoch, effects.effects.digest) + weight ≥
        committee.quorum_threshold) := by
  rw [add_spec]
  simp only [updateEntryGet_stake]
  split <;> simp_all

lemma add_stake_same (m : EffectsStakeMap) (effects : SignedTransactionEffects)
    (weight : Nat) (committee : Committee) :
    map_stake ((m.add effects weight committee).1.effects_map)
        (effects.epoch, effects.effects.digest) =
      map_stake m.effects_map (effects.epoch, effects.effects.digest) + weight := by
  rw [add_effects_map, map_stake_updateEntryGet_same]

lemma add_findEntry_other (m : EffectsStakeMap) (effects : SignedTransactionEffects)
    (weight : Nat) (committee : Committee) (k : Nat × Nat)
    (hne : k ≠ (effects.epoch, effects.effects.digest)) :
    findEntry k ((m.add effects weight committee).1.effects_map) =
      findEntry k m.effects_map := by
  rw [add_effects_map]
  exact findEntry_updateEntryGet_other _ _ _ _ k hne m.effects_map

lemma add_cert_of_lt (m : EffectsStakeMap) (effects : SignedTransactionEffects)
    (weight : Nat) (committee : Committee)
    (h : map_stake m.effects_map (effects.epoch, effects.effects.digest) + weight <
      committee.quorum_threshold) :
    (m.add effects weight committee).1.effects_cert = m.effects_cert := by
  rw [add_spec]
  simp only [updateEntryGet_stake]
  rw [if_neg (by omega)]

lemma add_cert_of_ge (m : EffectsStakeMap) (effects : SignedTransactionEffects)
    (weight : Nat) (committee : Committee)
    (h : map_stake m.effects_map (effects.epoch, effects.effects.digest) + weight ≥
      committee.quorum_threshold) :
    (m.add effects weight committee).1.effects_cert =
      some ⟨(updateEntryGet (effects.epoch, effects.effects.digest) effects.effects
          effects.auth_sig weight m.effects_map).2.effects,
        (updateEntryGet (effects.epoch, effects.effects.digest) effects.effects
          effects.auth_sig weight m.effects_map).2.signatures⟩ := by
  rw [add_spec]
  simp only [updateEntryGet_stake]
  rw [if_pos (by omega)]

/-- Committee used to witness the double-counting behaviour: authority 0 has
stake 2, authorities 1 and 2 have stake 1 (total 4, quorum threshold 3). -/
def committee3 : Committee :=
  { epoch := 0, voting_rights := [(0, 2), (1, 1), (2, 1)] }

/-- Signed effects with digest 1 signed by authority 0 at epoch 0. -/
def effects_auth0 : SignedTransactionEffects :=
  { epoch := 0, effects := { digest := 1 }, auth_sig := { epoch := 0, authority := 0 } }

/-- C9: `EffectsStakeMap.add` does not deduplicate authorities — every call
adds the given weight to the key's entry unconditionally, so adding the same
authority's signed effects twice under one `(epoch, effects_digest)` key
counts that authority's stake twice toward `quorum_threshold`: concretely,
with quorum threshold 3 a stake-2 authority added twice crosses quorum on
the second (duplicate) add. -/
theorem effects_stake_map_add_no_dedup :
    (∀ (m : EffectsStakeMap) (effects : SignedTransactionEffects) (weight : Nat)
      (committee : Committee),
      map_stake (((m.add effects weight committee).1.add effects weight
          committee).1.effects_map) (effects.epoch, effects.effects.digest) =
        map_stake m.effects_map (effects.epoch, effects.effects.digest) +
          weight + weight) ∧
    (EffectsStakeMap.empty.add effects_auth0 2 committee3).2 = false ∧
    ((EffectsStakeMap.empty.add effects_auth0 2 committee3).1.add effects_auth0 2
      committee3).2 = true := by
  refine ⟨?_, by rfl, by rfl⟩
  intro m effects weight committee
  rw [add_stake_same, add_stake_same]

lemma add_all_same_key (committee : Committee) (pe : Nat)
    (pf : TransactionEffects) :
    ∀ (l : List (SignedTransactionEffects × Nat)) (m : EffectsStakeMap)
      (s0 : Nat) (S0 : List AuthoritySignInfo),
    l ≠ [] →
    (∀ p ∈ l, p.1.epoch = pe ∧ p.1.effects = pf) →
    (findEntry (pe, pf.digest) m.effects_map =
        some { stake := s0, effects := pf, signatures := S0 }) →
    s0 + (l.map (fun p => p.2)).sum ≥ committee.quorum_threshold →
    (add_all committee m l).effects_cert =
      some ⟨pf, S0 ++ l.map (fun p => p.1.auth_sig)⟩ := by
  intro l
  induction l with
  | nil => intro m s0 S0 hne; exact absurd rfl hne
  | cons p rest ih =>
    intro m s0 S0 _ hall hentry hq
    obtain ⟨⟨qe, qf, qs⟩, qw⟩ := p
    obtain ⟨he, hf⟩ := hall _ (List.mem_cons_self _ _)
    simp only at he hf
    subst he
    subst hf
    have hstake : map_stake m.effects_map (qe, qf.digest) = s0 := by
      unfold map_stake
      rw [hentry]
    have hentry' :
        findEntry (qe, qf.digest)
          ((m.add ⟨qe, qf, qs⟩ qw committee).1.effects_map) =
          some { stake := s0 + qw, effects := qf, signatures := S0 ++ [qs] } := by
      rw [add_effects_map]
      dsimp only
      rw [findEntry_updateEntryGet_same, updateEntryGet_entry, hentry]
    cases rest with
    | nil =>
      simp only [add_all]
      have hge : map_stake m.effects_map
          ((⟨qe, qf, qs⟩ : SignedTransactionEffects).epoch,
            (⟨qe, qf, qs⟩ : SignedTransactionEffects).effects.digest) + qw ≥
          committee.quorum_threshold := by
        dsimp only
        rw [hstake]
        simpa using hq
      have hcert := add_cert_of_ge m ⟨qe, qf, qs⟩ qw committee hge
      dsimp only at hcert
      rw [hcert, updateEntryGet_entry, hentry]
      simp
    | cons q qsl =>
      have hresult := ih ((m.add ⟨qe, qf, qs⟩ qw committee).1) (s0 + qw)
        (S0 ++ [qs]) (by simp)
        (fun r hr => hall r (List.mem_cons_of_mem _ hr)) hentry'
        (by simp only [List.map_cons, List.sum_cons] at hq ⊢; omega)
      have hstep : (add_all committee m ((⟨qe, qf, qs⟩, qw) :: q :: qsl)).effects_cert =
          (add_all committee (m.add ⟨qe, qf, qs⟩ qw committee).1
            (q :: qsl)).effects_cert := rfl
      rw [hstep, hresult]
      simp

/-- C7: `EffectsStakeMap` aggregation — (1) an `add` reports quorum exactly
when the key's accumulated stake (including this weight) reaches
`quorum_threshold`; (2) adding signed effects that all share one
`(epoch, effects_digest)` key with weights summing to at least
`quorum_threshold` yields exactly one `CertifiedTransactionEffects`, over
that effects value with exactly the collected signatures; (3) an add under
one key never touches another key's entry, so distinct digests accumulate
separately and never contribute stake to each other. -/
theorem effects_stake_map_quorum (committee : Committee) :
    (∀ (m : EffectsStakeMap) (effects : SignedTransactionEffects) (weight : Nat),
      ((m.add effects weight committee).2 = true ↔
        map_stake m.effects_map (effects.epoch, effects.effects.digest) + weight ≥
          committee.quorum_threshold)) ∧
    (∀ (l : List (SignedTransactionEffects × Nat)) (pe : Nat)
      (pf : TransactionEffects),
      l ≠ [] →
      (∀ p ∈ l, p.1.epoch = pe ∧ p.1.effects = pf) →
      (l.map (fun p => p.2)).sum ≥ committee.quorum_threshold →
      (add_all committee EffectsStakeMap.empty l).get_cert =
        some ⟨pf, l.map (fun p => p.1.auth_sig)⟩) ∧
    (∀ (m : EffectsStakeMap) (effects : SignedTransactionEffects) (weight : Nat)
      (k : Nat × Nat), k ≠ (effects.epoch, effects.effects.digest) →
      findEntry k ((m.add effects weight committee).1.effects_map) =
        findEntry k m.effects_map) := by
  refine ⟨?_, ?_, ?_⟩
  · intro m effects weight
    rw [add_returns]
    exact decide_eq_true_iff
  · intro l pe pf hne hall hq
    cases l with
    | nil => exact absurd rfl hne
    | cons p rest =>
      obtain ⟨⟨qe, qf, qs⟩, qw⟩ := p
      obtain ⟨he, hf⟩ := hall _ (List.mem_cons_self _ _)
      simp only at he hf
      subst he
      subst hf
      unfold EffectsStakeMap.get_cert
      have hempty : findEntry (qe, qf.digest)
          ((EffectsStakeMap.empty.add ⟨qe, qf, qs⟩ qw committee).1.effects_map) =
          some { stake := qw, effects := qf, signatures := [qs] } := by
        rw [add_effects_map]
        dsimp only
        rw [findEntry_updateEntryGet_same, updateEntryGet_entry]
        simp [EffectsStakeMap.empty, findEntry]
      cases rest with
      | nil =>
        simp only [add_all]
        have hge : map_stake EffectsStakeMap.empty.effects_map
            ((⟨qe, qf, qs⟩ : SignedTransactionEffects).epoch,
              (⟨qe, qf, qs⟩ : SignedTransactionEffects).effects.digest) + qw ≥
            committee.quorum_threshold := by
          dsimp only
          simp only [map_stake, findEntry, EffectsStakeMap.empty]
          simpa using hq
        have hcert := add_cert_of_ge EffectsStakeMap.empty ⟨qe, qf, qs⟩ qw committee hge
        dsimp only at hcert
        rw [hcert, updateEntryGet_entry]
        simp [EffectsStakeMap.empty, findEntry]
      | cons q qsl =>
        have hresult := add_all_same_key committee qe qf (q :: qsl)
          ((EffectsStakeMap.empty.add ⟨qe, qf, qs⟩ qw committee).1) qw
          [qs] (by simp)
          (fun r hr => hall r (List.mem_cons_of_mem _ hr)) hempty
          (by simp only [List.map_cons, List.sum_cons] at hq ⊢; omega)
        have hstep : (add_all committee EffectsStakeMap.empty
            ((⟨qe, qf, qs⟩, qw) :: q :: qsl)).effects_cert =
            (add_all committee
              (EffectsStakeMap.empty.add ⟨qe, qf, qs⟩ qw committee).1
              (q :: qsl)).effects_cert := rfl
        rw [hstep, hresult]
        simp
  · intro m effects weight k hk
    exact add_findEntry_other m effects weight committee k hk

/-- Closed instance of `effects_stake_map_quorum`: three stake-1 authorities
of `committee4` sign the same effects digest and yield one certificate over
exactly those three signatures. -/
theorem effects_stake_map_quorum_witness :
    (add_all committee4 EffectsStakeMap.empty
      [(⟨0, ⟨1⟩, ⟨0, 0⟩⟩, 1), (⟨0, ⟨1⟩, ⟨0, 1⟩⟩, 1), (⟨0, ⟨1⟩, ⟨0, 2⟩⟩, 1)]).get_cert =
      some ⟨⟨1⟩, [⟨0, 0⟩, ⟨0, 1⟩, ⟨0, 2⟩]⟩ :=
  (effects_stake_map_quorum committee4).2.1
    [(⟨0, ⟨1⟩, ⟨0, 0⟩⟩, 1), (⟨0, ⟨1⟩, ⟨0, 1⟩⟩, 1), (⟨0, ⟨1⟩, ⟨0, 2⟩⟩, 1)]
    0 ⟨1⟩ (by decide) (by decide) (by decide)

/-- C1: folding a signed-transaction response at the committee's epoch
appends the signature and accumulates the responder's stake, and as soon as
the accumulated good stake reaches `quorum_threshold` the reducer ends with
a certificate assembled from exactly the signatures collected so far; in the
4-authority equal-stake scenario where 3 authorities sign identically,
`process_transaction` returns the certificate with exactly those 3
signatures. -/
theorem process_transaction_signed_accumulation
    (committee : Committee) (transaction : Nat) (state : ProcessTransactionState)
    (name weight : Nat) (resp : VerifiedTransactionInfoResponse) (s : SignedTransaction)
    (hcert : resp.certified_transaction = none)
    (hsig : resp.signed_transaction = some s)
    (hepoch : s.epoch = committee.epoch)
    (hbad : state.bad_stake ≤ committee.validity_threshold) :
    (handle_transaction_response committee transaction state name weight (.ok resp) =
      if state.good_stake + weight ≥ committee.quorum_threshold then
        { state with
          signatures := state.signatures ++ [s.auth_sig]
          good_stake := state.good_stake + weight
          certificate := some (CertifiedTransaction.new transaction
            (state.signatures ++ [s.auth_sig]) committee) }
      else
        { state with
          signatures := state.signatures ++ [s.auth_sig]
          good_stake := state.good_stake + weight }) ∧
    (state.good_stake + weight ≥ committee.quorum_threshold →
      process_transaction_reduce committee transaction state name weight (.ok resp) =
        .End { state with
          signatures := state.signatures ++ [s.auth_sig]
          good_stake := state.good_stake + weight
          certificate := some (CertifiedTransaction.new transaction
            (state.signatures ++ [s.auth_sig]) committee) }) ∧
    process_transaction committee4 7 scenario1_responses =
      .ok { epoch := 0, data := 7, signatures := [⟨0, 0⟩, ⟨0, 1⟩, ⟨0, 2⟩] } := by
  have harm : handle_transaction_response committee transaction state name weight
      (.ok resp) = handle_signed_transaction_arm committee transaction state weight s := by
    unfold handle_transaction_response
    simp [hcert, hsig, hepoch]
  refine ⟨?_, ?_, by rfl⟩
  · rw [harm]
    unfold handle_signed_transaction_arm
    rfl
  · intro hge
    unfold process_transaction_reduce
    rw [harm]
    unfold handle_signed_transaction_arm
    dsimp only
    rw [if_pos hge]
    have hbad' : ¬ (state.bad_stake > committee.validity_threshold) := Nat.not_lt.mpr hbad
    simp [hbad']

/-- Closed instance of `process_transaction_signed_accumulation`: scenario 1
on `committee4`, showing the early stop after the third signature. -/
theorem process_transaction_signed_accumulation_witness :
    process_transaction committee4 7 scenario1_responses =
      .ok { epoch := 0, data := 7, signatures := [⟨0, 0⟩, ⟨0, 1⟩, ⟨0, 2⟩] } :=
  (process_transaction_signed_accumulation committee4 7 initial_transaction_state
    0 1 (signed_response 0) ⟨0, 7, ⟨0, 0⟩⟩ rfl rfl rfl (by decide)).2.2

/-- C10: a non-error response carrying a certificate or signed transaction
from an epoch different from the committee's, and not reaching the
effects-quorum path, is recorded as an
`UnexpectedResultFromValidatorHandleTransaction` error and its stake counted
as bad stake, so enough such responses end the aggregation like any other
errors. -/
theorem wrong_epoch_response_counts_bad
    (committee : Committee) (transaction : Nat) (state : ProcessTransactionState)
    (name weight : Nat) (resp : VerifiedTransactionInfoResponse)
    (hcarry : resp.certified_transaction.isSome ∨ resp.signed_transaction.isSome)
    (hcertepoch : ∀ c0, resp.certified_transaction = some c0 → c0.epoch ≠ committee.epoch)
    (hnoeff : resp.certified_transaction = none ∨ resp.signed_effects = none)
    (hsigepoch : ∀ s, resp.signed_transaction = some s → s.epoch ≠ committee.epoch) :
    (handle_transaction_response committee transaction state name weight (.ok resp) =
      { state with
        errors := state.errors ++ [.UnexpectedResultFromValidatorHandleTransaction resp]
        bad_stake := state.bad_stake + weight }) ∧
    (state.certificate = none →
      state.bad_stake + weight > committee.validity_threshold →
      process_transaction_reduce committee transaction state name weight (.ok resp) =
        .End { state with
          errors := state.errors ++ [.UnexpectedResultFromValidatorHandleTransaction resp]
          bad_stake := state.bad_stake + weight }) := by
  have harm : handle_transaction_response committee transaction state name weight
      (.ok resp) = handle_unexpected_arm state weight resp := by
    unfold handle_transaction_response
    cases hc : resp.certified_transaction with
    | some c0 =>
      have hne := hcertepoch c0 hc
      have heff : resp.signed_effects = none := by
        cases hnoeff with
        | inl h => rw [h] at hc; exact absurd hc (by simp)
        | inr h => exact h
      cases hs : resp.signed_transaction with
      | some s =>
        have hne2 := hsigepoch s hs
        simp [hc, heff, hs, hne, hne2]
      | none => simp [hc, heff, hs, hne]
    | none =>
      cases hs : resp.signed_transaction with
      | some s =>
        have hne2 := hsigepoch s hs
        simp [hc, hs, hne2]
      | none => simp [hc, hs]
  constructor
  · rw [harm]
    rfl
  · intro _ h2
    unfold process_transaction_reduce
    rw [harm]
    unfold handle_unexpected_arm
    simp [h2]

/-- Closed instance of `wrong_epoch_response_counts_bad`: an epoch-1
certificate presented to the epoch-0 `committee4` with weight 3 is recorded
as an unexpected result and ends the aggregation. -/
theorem wrong_epoch_response_counts_bad_witness :
    process_transaction_reduce committee4 7 initial_transaction_state 0 3
      (.ok { certified_transaction := some ⟨1, 7, []⟩, signed_transaction := none,
             signed_effects := none }) =
      .End { initial_transaction_state with
        errors := [.UnexpectedResultFromValidatorHandleTransaction
          { certified_transaction := some ⟨1, 7, []⟩, signed_transaction := none,
            signed_effects := none }]
        bad_stake := 3 } :=
  (wrong_epoch_response_counts_bad committee4 7 initial_transaction_state 0 3
    { certified_transaction := some ⟨1, 7, []⟩, signed_transaction := none,
      signed_effects := none }
    (by simp) (by intro c0 h; injection h with h; rw [← h]; decide)
    (by right; rfl) (by intro s h; exact absurd h (by simp))).2 rfl (by decide)

/-- C6: when the accumulated bad stake exceeds `validity_threshold` before a
certificate has been formed, the aggregation stops — no later response is
folded — and `process_transaction` returns the structured
`QuorumFailedToProcessTransaction` failure carrying the accumulated
`good_stake`, every collected error, and the conflicting-transaction
evidence map. -/
theorem bad_stake_aborts_process_transaction
    (committee : Committee) (transaction : Nat)
    (pre rest : List (Nat × Except SuiError VerifiedTransactionInfoResponse))
    (name : Nat) (result : Except SuiError VerifiedTransactionInfoResponse)
    (st st' : ProcessTransactionState)
    (hpre : reduce_all_continue committee
      (fun s n w r => .ok (process_transaction_reduce committee transaction s n w r))
      initial_transaction_state pre = some st)
    (hst' : handle_transaction_response committee transaction st name
      (committee.weight name) result = st')
    (hnocert : st'.certificate = none)
    (hbad : st'.bad_stake > committee.validity_threshold) :
    process_transaction committee transaction (pre ++ (name, result) :: rest) =
      .error (.QuorumFailedToProcessTransaction st'.good_stake st'.errors
        st'.conflicting_tx_digests) := by
  unfold process_transaction
  rw [reduce_append_of_all_continue committee _ pre initial_transaction_state st
    ((name, result) :: rest) hpre]
  have hred : process_transaction_reduce committee transaction st name
      (committee.weight name) result = .End st' := by
    unfold process_transaction_reduce
    rw [hst']
    rw [if_pos hbad]
  simp [quorum_map_then_reduce_with_timeout, hred, hnocert]

/-- Closed instance of `bad_stake_aborts_process_transaction`: three
stake-1 errors on `committee4` (bad stake 3 > validity threshold 2) abort
the aggregation with all three errors even though a fourth, signing response
is still outstanding. -/
theorem bad_stake_aborts_process_transaction_witness :
    process_transaction committee4 7
      ([(0, .error (.rpcError 0)), (1, .error (.rpcError 1))] ++
        (2, .error (.rpcError 2)) :: [(3, .ok (signed_response 3))]) =
      .error (.QuorumFailedToProcessTransaction 0
        [.rpcError 0, .rpcError 1, .rpcError 2] []) :=
  bad_stake_aborts_process_transaction committee4 7
    [(0, .error (.rpcError 0)), (1, .error (.rpcError 1))]
    [(3, .ok (signed_response 3))] 2 (.error (.rpcError 2))
    { signatures := [], certificate := none, effects_map := EffectsStakeMap.empty,
      errors := [.rpcError 0, .rpcError 1], good_stake := 0, bad_stake := 2,
      conflicting_tx_digests := [] }
    { signatures := [], certificate := none, effects_map := EffectsStakeMap.empty,
      errors := [.rpcError 0, .rpcError 1, .rpcError 2], good_stake := 0,
      bad_stake := 3, conflicting_tx_digests := [] }
    (by rfl) (by rfl) (by rfl) (by decide)

lemma insert_desc_ne_nil (x : Nat × (List (Nat × Nat) × Nat)) :
    ∀ l : ConflictingTxDigests, insert_desc x l ≠ [] := by
  intro l
  cases l with
  | nil => simp [insert_desc]
  | cons y ys =>
    unfold insert_desc
    split <;> simp

lemma sort_by_stake_desc_eq_nil :
    ∀ l : ConflictingTxDigests, sort_by_stake_desc l = [] → l = [] := by
  intro l h
  cases l with
  | nil => rfl
  | cons x xs =>
    rw [sort_by_stake_desc] at h
    exact absurd h (insert_desc_ne_nil x _)

lemma sort_head_max :
    ∀ (l : ConflictingTxDigests) (x : Nat × (List (Nat × Nat) × Nat))
      (xs : ConflictingTxDigests),
    sort_by_stake_desc l = x :: xs → ∀ e ∈ l, e.2.2 ≤ x.2.2 := by
  intro l
  induction l with
  | nil => intro x xs h; simp [sort_by_stake_desc] at h
  | cons y ys ih =>
    intro x xs h e he
    rw [sort_by_stake_desc] at h
    cases hsort : sort_by_stake_desc ys with
    | nil =>
      have hys : ys = [] := sort_by_stake_desc_eq_nil ys hsort
      subst hys
      rw [hsort] at h
      simp [insert_desc] at h
      obtain ⟨hx, -⟩ := h
      subst hx
      simp at he
      subst he
      exact Nat.le_refl _
    | cons z zs =>
      rw [hsort] at h
      have hz : ∀ e ∈ ys, e.2.2 ≤ z.2.2 := ih z zs hsort
      unfold insert_desc at h
      by_cases hcmp : y.2.2 ≥ z.2.2
      · rw [if_pos hcmp] at h
        injection h with h1 h2
        subst h1
        rcases List.mem_cons.mp he with rfl | hmem
        · exact Nat.le_refl _
        · exact Nat.le_trans (hz e hmem) hcmp
      · rw [if_neg hcmp] at h
        injection h with h1 h2
        subst h1
        have hyz : y.2.2 ≤ z.2.2 := Nat.le_of_lt (Nat.not_le.mp hcmp)
        rcases List.mem_cons.mp he with rfl | hmem
        · exact hyz
        · exact hz e hmem

/-- C3: the conflict-resolution policy, evaluated against the original
transaction's `good_stake` and the conflicting candidate with the highest
reported stake (the head of the stable descending sort): when `good_stake`
reaches `validity_threshold` (including the equivocation case in which the
candidate's stake also reaches it), or when the best candidate's stake is
below `validity_threshold`, no transaction is retried; otherwise exactly the
best candidate is fetched and executed, exactly once, and
`Some((its digest, success))` is reported. Within
`attempt_one_conflicting_transaction`, a fetched certificate is executed via
`process_certificate` and a fetched signed transaction via
`execute_transaction`, each exactly once, reporting that call's success. -/
theorem conflict_resolution_policy (validity good_stake : Nat)
    (conflicting : ConflictingTxDigests)
    (attempt_one : Nat → Except SuiError Bool)
    (tx_digest : Nat) (validators : List (Nat × Nat)) (total_stake : Nat)
    (rest : ConflictingTxDigests)
    (hsorted : sort_by_stake_desc conflicting =
      (tx_digest, (validators, total_stake)) :: rest) :
    (∀ e ∈ conflicting, e.2.2 ≤ total_stake) ∧
    (good_stake ≥ validity ∨ total_stake < validity →
      attempt_conflicting_transactions_maybe validity good_stake conflicting
        attempt_one = (.ok none, [])) ∧
    (good_stake < validity → validity ≤ total_stake →
      ∀ b, attempt_one tx_digest = .ok b →
      attempt_conflicting_transactions_maybe validity good_stake conflicting
        attempt_one = (.ok (some (tx_digest, b)), [tx_digest])) ∧
    (∀ signed process_certificate_ok execute_transaction_ok,
      attempt_one_conflicting_transaction (some signed) none
        process_certificate_ok execute_transaction_ok = .ok execute_transaction_ok) ∧
    (∀ fetched_signed cert process_certificate_ok execute_transaction_ok,
      attempt_one_conflicting_transaction fetched_signed (some cert)
        process_certificate_ok execute_transaction_ok = .ok process_certificate_ok) := by
  refine ⟨?_, ?_, ?_, fun _ _ _ => rfl, fun _ _ _ _ => rfl⟩
  · intro e he
    exact sort_head_max conflicting (tx_digest, (validators, total_stake)) rest hsorted e he
  · intro h
    unfold attempt_conflicting_transactions_maybe
    rw [hsorted]
    dsimp only
    rcases h with hgood | hts
    · by_cases hts2 : total_stake ≥ validity
      · rw [if_pos ⟨hgood, hts2⟩]
      · rw [if_neg (fun hand => hts2 hand.2), if_pos hgood]
    · by_cases hgood2 : good_stake ≥ validity
      · by_cases hts2 : total_stake ≥ validity
        · rw [if_pos ⟨hgood2, hts2⟩]
        · rw [if_neg (fun hand => hts2 hand.2), if_pos hgood2]
      · rw [if_neg (fun hand => hgood2 hand.1), if_neg hgood2, if_pos hts]
  · intro hgood hts b hb
    unfold attempt_conflicting_transactions_maybe
    rw [hsorted]
    dsimp only
    have h1 : ¬(good_stake ≥ validity ∧ total_stake ≥ validity) :=
      fun hand => absurd hand.1 (Nat.not_le.mpr hgood)
    have h2 : ¬(good_stake ≥ validity) := Nat.not_le.mpr hgood
    have h3 : ¬(total_stake < validity) := Nat.not_lt.mpr hts
    rw [if_neg h1, if_neg h2, if_neg h3, hb]

/-- Closed instance of `conflict_resolution_policy`: with validity threshold
2, original stake 1 and a best candidate reported by stake 2, exactly that
candidate is attempted once and its success reported. -/
theorem conflict_resolution_policy_witness :
    attempt_conflicting_transactions_maybe 2 1
      [(5, ([(0, 100)], 2)), (9, ([(1, 101)], 1))] (fun _ => .ok true) =
      (.ok (some (5, true)), [5]) :=
  (conflict_resolution_policy 2 1 [(5, ([(0, 100)], 2)), (9, ([(1, 101)], 1))]
    (fun _ => .ok true) 5 [(0, 100)] 2 [(9, ([(1, 101)], 1))] (by rfl)).2.2.1
    (by decide) (by decide) true rfl

lemma process_certificate_from_cons_continue (committee : Committee)
    (state s : ProcessCertificateState) (name : Nat)
    (result : Except SuiError HandleCertificateResponse)
    (rest : List (Nat × Except SuiError HandleCertificateResponse))
    (h : process_certificate_reduce committee state name (committee.weight name)
      result = .Continue s) :
    process_certificate_from committee state ((name, result) :: rest) =
      process_certificate_from committee s rest := by
  simp only [process_certificate_from, quorum_map_then_reduce_with_timeout, h]

lemma process_certificate_from_cons_end (committee : Committee)
    (state s : ProcessCertificateState) (name : Nat)
    (result : Except SuiError HandleCertificateResponse)
    (rest : List (Nat × Except SuiError HandleCertificateResponse))
    (h : process_certificate_reduce committee state name (committee.weight name)
      result = .End s) :
    process_certificate_from committee state ((name, result) :: rest) =
      (match s.effects_map.get_cert with
      | some cert => .ok cert
      | none => .error (.QuorumFailedToExecuteCertificate s.errors)) := by
  simp only [process_certificate_from, quorum_map_then_reduce_with_timeout, h]

lemma process_certificate_from_spec (committee : Committee) :
    ∀ (responses : List (Nat × Except SuiError HandleCertificateResponse))
      (state : ProcessCertificateState) (key_stake : Nat × Nat → Nat)
      (error_stake : Nat) (collected : List SuiError),
    (∀ k, map_stake state.effects_map.effects_map k = key_stake k) →
    state.effects_map.effects_cert = none →
    state.errors = collected →
    state.bad_stake = error_stake →
    (∀ k info, findEntry k state.effects_map.effects_map = some info →
      info.effects.digest = k.2) →
    ((∀ e d, spec_cert_outcome committee key_stake error_stake collected responses =
        .certified e d →
      ∃ ce, process_certificate_from committee state responses = .ok ce ∧
        ce.effects.digest = d) ∧
     (∀ errs, spec_cert_outcome committee key_stake error_stake collected responses =
        .failed errs →
      process_certificate_from committee state responses =
        .error (.QuorumFailedToExecuteCertificate errs))) := by
  intro responses
  induction responses with
  | nil =>
    intro state key_stake error_stake collected hks hcert herr hbad hdig
    constructor
    · intro e d h
      exact absurd h (by simp [spec_cert_outcome])
    · intro errs h
      simp only [spec_cert_outcome, CertAggregationOutcome.failed.injEq] at h
      subst h
      simp only [process_certificate_from, quorum_map_then_reduce_with_timeout]
      simp [EffectsStakeMap.get_cert, hcert, herr]
  | cons hd rest ih =>
    obtain ⟨name, result⟩ := hd
    intro state key_stake error_stake collected hks hcert herr hbad hdig
    cases result with
    | ok resp =>
      have hdigest : (updateEntryGet (resp.signed_effects.epoch,
          resp.signed_effects.effects.digest) resp.signed_effects.effects
          resp.signed_effects.auth_sig (committee.weight name)
          state.effects_map.effects_map).2.effects.digest =
          resp.signed_effects.effects.digest := by
        rw [updateEntryGet_entry]
        cases hf : findEntry (resp.signed_effects.epoch,
            resp.signed_effects.effects.digest) state.effects_map.effects_map with
        | some info => simpa using hdig _ info hf
        | none => simp
      by_cases hq : key_stake (resp.signed_effects.epoch,
          resp.signed_effects.effects.digest) + committee.weight name ≥
          committee.quorum_threshold
      · -- this response takes its key to quorum: the reducer ends
        have hr2 : (state.effects_map.add resp.signed_effects
            (committee.weight name) committee).2 = true := by
          rw [add_returns, hks]
          simpa using hq
        have hred : process_certificate_reduce committee state name
            (committee.weight name) (.ok resp) =
            .End { state with effects_map := (state.effects_map.add
              resp.signed_effects (committee.weight name) committee).1 } := by
          unfold process_certificate_reduce
          dsimp only
          rw [hr2]
          simp
        rw [process_certificate_from_cons_end committee state _ name _ rest hred]
        have hge : map_stake state.effects_map.effects_map
            (resp.signed_effects.epoch, resp.signed_effects.effects.digest) +
              committee.weight name ≥ committee.quorum_threshold := by
          rw [hks]; exact hq
        have hcert' := add_cert_of_ge state.effects_map resp.signed_effects
          (committee.weight name) committee hge
        constructor
        · intro e d h
          simp only [spec_cert_outcome] at h
          rw [if_pos hq] at h
          injection h with h1 h2
          subst h2
          simp only [EffectsStakeMap.get_cert, hcert']
          exact ⟨_, rfl, hdigest⟩
        · intro errs h
          simp only [spec_cert_outcome] at h
          rw [if_pos hq] at h
          exact absurd h (by simp)
      · -- below quorum: the reducer continues with the updated stake map
        have hr2 : (state.effects_map.add resp.signed_effects
            (committee.weight name) committee).2 = false := by
          rw [add_returns, hks]
          simpa using hq
        have hred : process_certificate_reduce committee state name
            (committee.weight name) (.ok resp) =
            .Continue { state with effects_map := (state.effects_map.add
              resp.signed_effects (committee.weight name) committee).1 } := by
          unfold process_certificate_reduce
          dsimp only
          rw [hr2]
          simp
        rw [process_certificate_from_cons_continue committee state _ name _ rest hred]
        have hlt : map_stake state.effects_map.effects_map
            (resp.signed_effects.epoch, resp.signed_effects.effects.digest) +
              committee.weight name < committee.quorum_threshold := by
          rw [hks]; omega
        have hks' : ∀ k, map_stake ((state.effects_map.add resp.signed_effects
            (committee.weight name) committee).1).effects_map k =
            (fun k => if k = (resp.signed_effects.epoch,
              resp.signed_effects.effects.digest) then
              key_stake (resp.signed_effects.epoch,
                resp.signed_effects.effects.digest) + committee.weight name
              else key_stake k) k := by
          intro k
          by_cases hk : k = (resp.signed_effects.epoch,
              resp.signed_effects.effects.digest)
          · subst hk
            simp only [if_pos rfl]
            rw [← hks]
            exact add_stake_same state.effects_map resp.signed_effects
              (committee.weight name) committee
          · simp only [if_neg hk]
            unfold map_stake
            rw [add_findEntry_other state.effects_map resp.signed_effects
              (committee.weight name) committee k hk]
            have := hks k
            unfold map_stake at this
            exact this
        have hdig' : ∀ k info, findEntry k ((state.effects_map.add
            resp.signed_effects (committee.weight name) committee).1).effects_map =
            some info → info.effects.digest = k.2 := by
          intro k info hf
          by_cases hk : k = (resp.signed_effects.epoch,
              resp.signed_effects.effects.digest)
          · subst hk
            rw [add_effects_map, findEntry_updateEntryGet_same] at hf
            injection hf with hf
            rw [← hf]
            exact hdigest
          · rw [add_findEntry_other state.effects_map resp.signed_effects
              (committee.weight name) committee k hk] at hf
            exact hdig k info hf
        have hnext := ih { state with effects_map := (state.effects_map.add
            resp.signed_effects (committee.weight name) committee).1 }
          (fun k => if k = (resp.signed_effects.epoch,
            resp.signed_effects.effects.digest) then
            key_stake (resp.signed_effects.epoch,
              resp.signed_effects.effects.digest) + committee.weight name
            else key_stake k)
          error_stake collected hks'
          ((add_cert_of_lt state.effects_map resp.signed_effects
            (committee.weight name) committee hlt).trans hcert)
          herr hbad hdig'
        constructor
        · intro e d h
          simp only [spec_cert_outcome] at h
          rw [if_neg hq] at h
          exact hnext.1 e d h
        · intro errs h
          simp only [spec_cert_outcome] at h
          rw [if_neg hq] at h
          exact hnext.2 errs h
    | error err =>
      by_cases hv : error_stake + committee.weight name >
          committee.validity_threshold
      · have hred : process_certificate_reduce committee state name
            (committee.weight name) (.error err) =
            .End { state with
              errors := state.errors ++ [err]
              bad_stake := state.bad_stake + committee.weight name } := by
          unfold process_certificate_reduce
          dsimp only
          rw [if_pos (by rw [hbad]; exact hv)]
        rw [process_certificate_from_cons_end committee state _ name _ rest hred]
        constructor
        · intro e d h
          simp only [spec_cert_outcome] at h
          rw [if_pos hv] at h
          exact absurd h (by simp)
        · intro errs h
          simp only [spec_cert_outcome] at h
          rw [if_pos hv] at h
          injection h with h1
          subst h1
          simp [EffectsStakeMap.get_cert, hcert, herr]
      · have hred : process_certificate_reduce committee state name
            (committee.weight name) (.error err) =
            .Continue { state with
              errors := state.errors ++ [err]
              bad_stake := state.bad_stake + committee.weight name } := by
          unfold process_certificate_reduce
          dsimp only
          rw [if_neg (by rw [hbad]; exact hv)]
        rw [process_certificate_from_cons_continue committee state _ name _ rest hred]
        have hnext := ih { state with
            errors := state.errors ++ [err]
            bad_stake := state.bad_stake + committee.weight name }
          key_stake (error_stake + committee.weight name) (collected ++ [err])
          hks hcert (by simp [herr]) (by simp [hbad]) hdig
        constructor
        · intro e d h
          simp only [spec_cert_outcome] at h
          rw [if_neg hv] at h
          exact hnext.1 e d h
        · intro errs h
          simp only [spec_cert_outcome] at h
          rw [if_neg hv] at h
          exact hnext.2 errs h

/-- C2: `process_certificate` returns certified effects exactly when some
`(epoch, effects_digest)` key accumulates stake reaching `quorum_threshold`
while folding the responses (ending right there, per the spec-side outcome
function `spec_cert_outcome`); otherwise — error stake beyond
`validity_threshold`, or the responses running out (the timeout) with no
digest at quorum — it returns `QuorumFailedToExecuteCertificate` carrying
exactly the collected per-authority errors. In the 2/2 digest-split scenario
on `committee4`, no certified effects are produced and the caller observes
the failure. -/
theorem process_certificate_spec (committee : Committee)
    (certificate : CertifiedTransaction)
    (responses : List (Nat × Except SuiError HandleCertificateResponse)) :
    (∀ e d, spec_cert_outcome committee (fun _ => 0) 0 [] responses =
        .certified e d →
      ∃ ce, process_certificate committee certificate responses = .ok ce ∧
        ce.effects.digest = d) ∧
    (∀ errs, spec_cert_outcome committee (fun _ => 0) 0 [] responses =
        .failed errs →
      process_certificate committee certificate responses =
        .error (.QuorumFailedToExecuteCertificate errs)) ∧
    (∀ ce, process_certificate committee certificate responses = .ok ce →
      ∃ e d, spec_cert_outcome committee (fun _ => 0) 0 [] responses =
        .certified e d) ∧
    process_certificate committee4 certificate4 scenario2_responses =
      .error (.QuorumFailedToExecuteCertificate []) := by
  have hmain := process_certificate_from_spec committee responses
    initial_certificate_state (fun _ => 0) 0 []
    (fun _ => rfl) rfl rfl rfl
    (fun k info h => by
      simp [findEntry, initial_certificate_state, EffectsStakeMap.empty] at h)
  refine ⟨?_, ?_, ?_, by rfl⟩
  · intro e d h
    unfold process_certificate
    exact hmain.1 e d h
  · intro errs h
    unfold process_certificate
    exact hmain.2 errs h
  · intro ce h
    unfold process_certificate at h
    cases hout : spec_cert_outcome committee (fun _ => 0) 0 [] responses with
    | certified e d => exact ⟨e, d, rfl⟩
    | failed errs =>
      rw [hmain.2 errs hout] at h
      exact absurd h (by simp)

/-- Closed instance of `process_certificate_spec`: three identical effects
responses on `committee4` reach quorum and produce certified effects with
the shared digest. -/
theorem process_certificate_spec_witness :
    ∃ ce, process_certificate committee4 certificate4 scenario2_quorum_responses =
      .ok ce ∧ ce.effects.digest = 1 :=
  (process_certificate_spec committee4 certificate4 scenario2_quorum_responses).1
    0 1 (by rfl)
